import Mathlib

/-!
Verification development for src/or/rendcommon.c: the hidden-service
descriptor codec (rend_encode_service_descriptor /
rend_parse_service_descriptor), the service-id function
(rend_get_service_id), and the descriptor cache (rend_cache_store,
rend_cache_lookup_entry, rend_cache_clean).

Byte strings are lists of naturals, one octet per entry.  Public/private
key environments (crypto_pk_env_t) are opaque handles modelled as Nat,
interpreted by an explicit crypto-collaborator model (structure Crypto);
a handle stands for a keypair env, as in the C API where the same env
type carries the public and, when present, the private key.
-/

/-- Reading ntohs(get_uint16(cp)): two octets, big endian.  C chars hold
8 bits, so each list entry is reduced mod 256. -/
def get_uint16 (l : List Nat) : Nat :=
  l.getD 0 0 % 256 * 256 + l.getD 1 0 % 256

/-- Reading ntohl(get_uint32(cp)): four octets, big endian. -/
def get_uint32 (l : List Nat) : Nat :=
  l.getD 0 0 % 256 * 16777216 + l.getD 1 0 % 256 * 65536 +
    l.getD 2 0 % 256 * 256 + l.getD 3 0 % 256

/-- Writing set_uint16(cp, htons((uint16_t)v)): the low 16 bits of v,
big endian. -/
def set_uint16 (v : Nat) : List Nat :=
  [v / 256 % 256, v % 256]

/-- Writing set_uint32(cp, htonl((uint32_t)v)): the low 32 bits of v,
big endian. -/
def set_uint32 (v : Nat) : List Nat :=
  [v / 16777216 % 256, v / 65536 % 256, v / 256 % 256, v % 256]

/-- memchr(cp, 0, end-cp) followed by tor_strdup(cp) and cp = eos+1:
split a byte string at its first NUL.  Returns none when no NUL occurs. -/
def splitAtNul : List Nat → Option (List Nat × List Nat)
  | [] => none
  | b :: bs =>
    if b = 0 then some ([], bs)
    else
      match splitAtNul bs with
      | none => none
      | some (ip, rest) => some (b :: ip, rest)

/-- The intro-point loop of rend_parse_service_descriptor (lines 103-109):
n iterations, each requiring at least 2 remaining bytes, locating the next
NUL, copying the bytes before it and advancing past the NUL. -/
def parseIntros : Nat → List Nat → Option (List (List Nat) × List Nat)
  | 0, rest => some ([], rest)
  | Nat.succ k, rest =>
    if rest.length < 2 then none
    else
      match splitAtNul rest with
      | none => none
      | some (ip, rest2) =>
        match parseIntros k rest2 with
        | none => none
        | some (ips, rest3) => some (ip :: ips, rest3)

/-- The intro-point region written by rend_encode_service_descriptor
(lines 60-64): each identifier followed by a single NUL byte. -/
def ipcat (ips : List (List Nat)) : List Nat :=
  ips.foldr (fun ip acc => ip ++ 0 :: acc) []

/-- rend_service_descriptor_t.  The n_intro_points field of the C struct
is the length of intro_points. -/
structure rend_service_descriptor where
  pk : Nat
  timestamp : Nat
  intro_points : List (List Nat)
  deriving DecidableEq

/-- Failure cause of rend_parse_service_descriptor: the code reaches the
truncated label (which also receives a failing crypto_pk_asn1_decode),
or logs "Signature too long" (trailing junk), or "Bad signature". -/
inductive ParseErr where
  | truncated
  | trailingJunk
  | badSignature
  deriving DecidableEq

instance {ε α : Type} [DecidableEq ε] [DecidableEq α] :
    DecidableEq (Except ε α) := fun x y =>
  match x, y with
  | .ok a, .ok b =>
    if h : a = b then isTrue (by rw [h])
    else isFalse (by intro hc; cases hc; exact h rfl)
  | .error a, .error b =>
    if h : a = b then isTrue (by rw [h])
    else isFalse (by intro hc; cases hc; exact h rfl)
  | .ok _, .error _ => isFalse (by intro hc; cases hc)
  | .error _, .ok _ => isFalse (by intro hc; cases hc)

/-- The crypto collaborator of §6.3, over opaque key handles.  keysize is
crypto_pk_keysize; asn1_encode / asn1_decode are crypto_pk_asn1_encode /
crypto_pk_asn1_decode; sign_digest is crypto_pk_private_sign_digest;
verify_digest is crypto_pk_public_checksig_digest returning ok/fail;
pk_digest is crypto_pk_get_digest. -/
structure Crypto where
  keysize : Nat → Nat
  asn1_encode : Nat → Option (List Nat)
  asn1_decode : List Nat → Option Nat
  sign_digest : Nat → List Nat → Option (List Nat)
  verify_digest : Nat → List Nat → List Nat → Bool
  pk_digest : Nat → Option (List Nat)

/-- rend_parse_service_descriptor (rendcommon.c lines 79-130), strictly
bounds-checked; a failing asn1 decode reaches the same truncated label as
the length checks, per the source. -/
def rend_parse_service_descriptor (C : Crypto) (str : List Nat) :
    Except ParseErr rend_service_descriptor :=
  if str.length < 2 then .error .truncated
  else if (str.drop 2).length < get_uint16 str then .error .truncated
  else
    match C.asn1_decode ((str.drop 2).take (get_uint16 str)) with
    | none => .error .truncated
    | some pk =>
      if ((str.drop 2).drop (get_uint16 str)).length < 4 then .error .truncated
      else if (((str.drop 2).drop (get_uint16 str)).drop 4).length < 2 then
        .error .truncated
      else
        match parseIntros
            (get_uint16 (((str.drop 2).drop (get_uint16 str)).drop 4))
            ((((str.drop 2).drop (get_uint16 str)).drop 4).drop 2) with
        | none => .error .truncated
        | some x =>
          if x.2.length < C.keysize pk then .error .truncated
          else if C.keysize pk < x.2.length then .error .trailingJunk
          else if C.verify_digest pk (str.take (str.length - x.2.length)) x.2 then
            .ok { pk := pk,
                  timestamp := get_uint32 ((str.drop 2).drop (get_uint16 str)),
                  intro_points := x.1 }
          else .error .badSignature

/-- rend_encode_service_descriptor (rendcommon.c lines 32-73).  The asn1
encoder is handed a buffer of capacity keysize*2, so a longer encoding is
the collaborator's failure; the final length check models
tor_assert(*len_out == (cp - *str_out)), which under the crypto contract
(signature length = keysize) always passes. -/
def rend_encode_service_descriptor (C : Crypto)
    (desc : rend_service_descriptor) (key : Nat) : Option (List Nat) :=
  match C.asn1_encode desc.pk with
  | none => none
  | some asn1 =>
    if 2 * C.keysize desc.pk < asn1.length then none
    else
      match C.sign_digest key
          (set_uint16 asn1.length ++ asn1 ++ set_uint32 desc.timestamp ++
            set_uint16 desc.intro_points.length ++ ipcat desc.intro_points) with
      | none => none
      | some sig =>
        if sig.length = C.keysize desc.pk then
          some (set_uint16 asn1.length ++ asn1 ++ set_uint32 desc.timestamp ++
            set_uint16 desc.intro_points.length ++ ipcat desc.intro_points ++ sig)
        else none

/-- The crypto-collaborator contract of §6.3 for the keypair handle k:
positive modulus length, asn1 round-trip within the offered capacity and
16-bit wire length field, and digest-then-sign producing a modulus-length
signature that verifies against the same handle's public key. -/
structure Crypto.Good (C : Crypto) (k : Nat) : Prop where
  keysize_pos : 1 ≤ C.keysize k
  asn1_isSome : (C.asn1_encode k).isSome
  asn1_spec : ∀ b, C.asn1_encode k = some b →
    C.asn1_decode b = some k ∧ b.length < 65536 ∧ b.length ≤ 2 * C.keysize k
  sign_isSome : ∀ data, (C.sign_digest k data).isSome
  sign_spec : ∀ data s, C.sign_digest k data = some s →
    s.length = C.keysize k ∧ C.verify_digest k data s = true

def DIGEST_LEN : Nat := 20

def REND_SERVICE_ID_LEN : Nat := 16

/-- Bits of one octet, most significant first. -/
def byteBits (b : Nat) : List Nat :=
  [b / 128 % 2, b / 64 % 2, b / 32 % 2, b / 16 % 2,
   b / 8 % 2, b / 4 % 2, b / 2 % 2, b % 2]

/-- Value of a bit group, most significant first. -/
def bitsVal (l : List Nat) : Nat :=
  l.foldl (fun a b => 2 * a + b) 0

/-- Groups of five bits. -/
def chunk5 : List Nat → List (List Nat)
  | a :: b :: c :: d :: e :: rest => [a, b, c, d, e] :: chunk5 rest
  | [] => []
  | l => [l]

/-- Character of a 5-bit value in the lowercase base32 alphabet a-z2-7. -/
def b32char (v : Nat) : Nat :=
  if v < 26 then v + 97 else v + 24

/-- Modelled from the spec: base32_encode of the crypto collaborator
(§4.2, §6.2, §6.3; the function itself is not under src/).  Encodes
in_len octets as (in_len*8)/5 characters of the lowercase a-z2-7
alphabet, failing when the output capacity cannot hold them plus a NUL. -/
def base32_encode (out_cap : Nat) (input : List Nat) : Option (List Nat) :=
  if out_cap < input.length * 8 / 5 + 1 then none
  else some ((chunk5 (input.map byteBits).flatten).map fun g => bitsVal g |> b32char)

/-- rend_get_service_id (rendcommon.c lines 136-145): the first 10 bytes
of the key digest, base32 encoded into a REND_SERVICE_ID_LEN+1 buffer. -/
def rend_get_service_id (C : Crypto) (pk : Nat) : Option (List Nat) :=
  match C.pk_digest pk with
  | none => none
  | some buf => base32_encode (REND_SERVICE_ID_LEN + 1) (buf.take 10)

/-- Modelled from the spec: BASE32_CHARS of the crypto collaborator (not
under src/); §3 and §6.2 fix the alphabet as lowercase a-z together with
the digits 2-7, and the open questions direct rejecting anything not in
the lowercase a-z2-7 form. -/
def BASE32_CHARS : List Nat :=
  [97, 98, 99, 100, 101, 102, 103, 104, 105, 106, 107, 108, 109,
   110, 111, 112, 113, 114, 115, 116, 117, 118, 119, 120, 121, 122,
   50, 51, 52, 53, 54, 55]

/-- rend_valid_service_id (rendcommon.c lines 189-197):
strlen(query) == REND_SERVICE_ID_LEN and
strspn(query, BASE32_CHARS) == REND_SERVICE_ID_LEN, i.e. every character
lies in the alphabet. -/
def rend_valid_service_id (query : List Nat) : Bool :=
  query.length = REND_SERVICE_ID_LEN &&
    query.all fun c => decide (c ∈ BASE32_CHARS)

/-- Modelled from the spec: ASCII lowercasing as used by the strmap _lc
operations (§4.3.5, canonical storage form is lowercase; the map
collaborator is not under src/). -/
def tolower (c : Nat) : Nat :=
  if 65 ≤ c ∧ c ≤ 90 then c + 32 else c

/-- Modelled from the spec: lowercasing a whole key string. -/
def strlower (s : List Nat) : List Nat :=
  s.map tolower

/-- Modelled from the spec: strmap_get on an association-list model of the
string-keyed map collaborator (not under src/). -/
def strmap_get {α : Type} : List (List Nat × α) → List Nat → Option α
  | [], _ => none
  | (k, v) :: rest, q => if k = q then some v else strmap_get rest q

/-- Modelled from the spec: strmap_set, replacing the binding in place
when the key is present and appending otherwise. -/
def strmap_set {α : Type} : List (List Nat × α) → List Nat → α → List (List Nat × α)
  | [], q, v => [(q, v)]
  | (k, w) :: rest, q, v =>
    if k = q then (k, v) :: rest else (k, w) :: strmap_set rest q v

/-- Modelled from the spec: strmap_get_lc, case-insensitive lookup via
lowercasing the query (§4.3.5). -/
def strmap_get_lc {α : Type} (m : List (List Nat × α)) (q : List Nat) : Option α :=
  strmap_get m (strlower q)

/-- Modelled from the spec: strmap_set_lc, storing under the lowercased
key (§4.3.5). -/
def strmap_set_lc {α : Type} (m : List (List Nat × α)) (q : List Nat) (v : α) :
    List (List Nat × α) :=
  strmap_set m (strlower q) v

/-- rend_cache_entry_t: last-received wall-clock time, parsed descriptor,
and the encoded bytes with their length. -/
structure rend_cache_entry where
  received : Int
  parsed : rend_service_descriptor
  len : Nat
  desc : List Nat
  deriving DecidableEq

/-- The rend_cache strmap from service id to rend_cache_entry_t. -/
abbrev Strmap : Type := List (List Nat × rend_cache_entry)

/-- rend_cache_lookup_entry (rendcommon.c lines 202-211): -1 on a
malformed query, 0 when absent, 1 with the entry when present. -/
def rend_cache_lookup_entry (cache : Strmap) (query : List Nat) :
    Int × Option rend_cache_entry :=
  if !rend_valid_service_id query then (-1, none)
  else
    match strmap_get_lc cache query with
    | none => (0, none)
    | some e => (1, some e)

def REND_CACHE_MAX_AGE : Int := 24 * 60 * 60

def REND_CACHE_MAX_SKEW : Int := 90 * 60

/-- rend_cache_store (rendcommon.c lines 237-292).  Wall-clock reads of
time(NULL) within one call are modelled as the single parameter now.
Failure returns -1 with the cache untouched; success returns 0, either
dropping the descriptor (a strictly newer one is cached), refreshing
received on a byte-identical duplicate, or inserting/replacing the
entry. -/
def rend_cache_store (C : Crypto) (cache : Strmap) (desc : List Nat)
    (now : Int) : Int × Strmap :=
  match rend_parse_service_descriptor C desc with
  | .error _ => (-1, cache)
  | .ok parsed =>
    match rend_get_service_id C parsed.pk with
    | none => (-1, cache)
    | some query =>
      if (parsed.timestamp : Int) < now - REND_CACHE_MAX_AGE then (-1, cache)
      else if (parsed.timestamp : Int) > now + REND_CACHE_MAX_SKEW then (-1, cache)
      else
        match strmap_get_lc cache query with
        | some e =>
          if e.parsed.timestamp > parsed.timestamp then (0, cache)
          else if e.len = desc.length && e.desc = desc then
            (0, strmap_set_lc cache query { e with received := now })
          else
            (0, strmap_set_lc cache query
              { received := now, parsed := parsed, len := desc.length, desc := desc })
        | none =>
          (0, strmap_set_lc cache query
            { received := now, parsed := parsed, len := desc.length, desc := desc })

/-- rend_cache_clean (rendcommon.c lines 165-185): remove every entry
whose parsed timestamp lies before now - REND_CACHE_MAX_AGE. -/
def rend_cache_clean (cache : Strmap) (now : Int) : Strmap :=
  cache.filter fun kv =>
    !decide ((kv.2.parsed.timestamp : Int) < now - REND_CACHE_MAX_AGE)

/-- A concrete instance of the crypto collaborator used to evaluate the
theorems on closed inputs: keys are single octets, the asn1 form is that
octet, signatures are the key octet followed by the byte sum of the data,
and the digest of k is the 20 octets k, k+1, ... -/
def toyCrypto : Crypto where
  keysize _ := 2
  asn1_encode k := if k < 256 then some [k] else none
  asn1_decode b :=
    match b with
    | [b0] => if b0 < 256 then some b0 else none
    | _ => none
  sign_digest k data := some [k % 256, (data.foldl (· + ·) 0) % 256]
  verify_digest k data s :=
    s = [k % 256, (data.foldl (· + ·) 0) % 256]
  pk_digest k := some ((List.range DIGEST_LEN).map fun i => (k + i) % 256)

/-- The timestamp a store call presents: that of its parsed descriptor. -/
def storeTs (C : Crypto) (d : List Nat) : Nat :=
  match rend_parse_service_descriptor C d with
  | .ok p => p.timestamp
  | .error _ => 0

/-- Run a sequence of rend_cache_store calls, returning the final cache
and the presented timestamps of the accepted (0-returning) calls. -/
def runStores (C : Crypto) : List (List Nat × Int) → Strmap → Strmap × List Nat
  | [], cache => (cache, [])
  | (d, now) :: rest, cache =>
    let r := rend_cache_store C cache d now
    let res := runStores C rest r.2
    (res.1, (if r.1 = 0 then [storeTs C d] else []) ++ res.2)

/-- A store call presents a descriptor for service id q: its bytes parse
and the parsed key derives q. -/
def presentsFor (C : Crypto) (c : List Nat × Int) (q : List Nat) : Bool :=
  match rend_parse_service_descriptor C c.1 with
  | .ok p => rend_get_service_id C p.pk = some q
  | .error _ => false

/-- Every cached entry's parsed descriptor is the parse of its encoded
bytes; rend_cache_store establishes this for every entry it writes. -/
def cacheWF (C : Crypto) (cache : Strmap) : Bool :=
  cache.all fun kv =>
    decide (rend_parse_service_descriptor C kv.2.desc = .ok kv.2.parsed)

lemma length_set_uint16 (v : Nat) : (set_uint16 v).length = 2 := rfl

lemma length_set_uint32 (v : Nat) : (set_uint32 v).length = 4 := rfl

lemma get_uint16_set (v : Nat) (l : List Nat) :
    get_uint16 (set_uint16 v ++ l) = v % 65536 := by
  simp [get_uint16, set_uint16, List.getD]
  omega

lemma get_uint32_set (v : Nat) (l : List Nat) :
    get_uint32 (set_uint32 v ++ l) = v % 4294967296 := by
  simp [get_uint32, set_uint32, List.getD]
  omega

lemma drop_set_uint16 (v : Nat) (l : List Nat) :
    (set_uint16 v ++ l).drop 2 = l := rfl

lemma drop_set_uint32 (v : Nat) (l : List Nat) :
    (set_uint32 v ++ l).drop 4 = l := rfl

lemma mem_of_mem_take {α : Type} {a : α} {l : List α} {n : Nat}
    (h : a ∈ l.take n) : a ∈ l := by
  have := List.take_append_drop n l
  rw [← this]
  exact List.mem_append_left _ h

lemma splitAtNul_of_not_mem (l : List Nat) (h : 0 ∉ l) : splitAtNul l = none := by
  induction l with
  | nil => rfl
  | cons b bs ih =>
    simp only [splitAtNul]
    rw [if_neg (by simp at h; omega)]
    rw [ih (by simp at h; exact h.2)]

lemma splitAtNul_append (ip rest : List Nat) (h : 0 ∉ ip) :
    splitAtNul (ip ++ 0 :: rest) = some (ip, rest) := by
  induction ip with
  | nil => simp [splitAtNul]
  | cons b bs ih =>
    simp only [List.cons_append, splitAtNul, List.append_eq]
    rw [if_neg (by simp at h; omega)]
    rw [ih (by simp at h; exact h.2)]

lemma ipcat_cons (ip : List Nat) (ips : List (List Nat)) :
    ipcat (ip :: ips) = ip ++ 0 :: ipcat ips := rfl

lemma parseIntros_ipcat (ips : List (List Nat)) (tail : List Nat)
    (h : ∀ ip ∈ ips, 0 ∉ ip) (ht : 1 ≤ tail.length) :
    parseIntros ips.length (ipcat ips ++ tail) = some (ips, tail) := by
  induction ips with
  | nil => rfl
  | cons ip ips ih =>
    simp only [List.length_cons, ipcat_cons, List.append_assoc, List.cons_append,
      parseIntros]
    rw [if_neg (by simp; omega)]
    simp only [splitAtNul_append _ _ (h ip (by simp)),
      ih (fun x hx => h x (by simp [hx]))]

lemma parseIntros_take (klen : Nat) (tail : List Nat)
    (ht : tail.length = klen) :
    ∀ (ips : List (List Nat)), (∀ ip ∈ ips, 0 ∉ ip) →
    ∀ r, r < (ipcat ips).length + klen →
      parseIntros ips.length ((ipcat ips ++ tail).take r) = none ∨
      ∃ x, parseIntros ips.length ((ipcat ips ++ tail).take r) = some x ∧
        x.2.length < klen := by
  intro ips
  induction ips with
  | nil =>
    intro _ r hr
    right
    refine ⟨([], (ipcat [] ++ tail).take r), rfl, ?_⟩
    simp [ipcat] at hr ⊢
    omega
  | cons ip ips ih =>
    intro h r hr
    have hip : 0 ∉ ip := h ip (by simp)
    have hips : ∀ x ∈ ips, 0 ∉ x := fun x hx => h x (by simp [hx])
    have hlens : (ipcat (ip :: ips)).length = ip.length + 1 + (ipcat ips).length := by
      simp [ipcat_cons]
      omega
    have hlen : ((ipcat (ip :: ips) ++ tail).take r).length = r := by
      simp [List.length_take]
      omega
    by_cases hr2 : r < 2
    · left
      simp only [List.length_cons, parseIntros]
      rw [if_pos (by rw [hlen]; exact hr2)]
    · by_cases hiple : r ≤ ip.length
      · have htake : (ipcat (ip :: ips) ++ tail).take r = ip.take r := by
          simp only [ipcat_cons, List.cons_append, List.append_assoc]
          rw [List.take_append_eq_append_take, Nat.sub_eq_zero_of_le hiple]
          simp
        left
        simp only [List.length_cons, parseIntros]
        rw [if_neg (by rw [hlen]; exact hr2)]
        rw [htake, splitAtNul_of_not_mem _ (fun hmem => hip (mem_of_mem_take hmem))]
      · have hklt : r - ip.length - 1 < (ipcat ips).length + klen := by omega
        have htake : (ipcat (ip :: ips) ++ tail).take r =
            ip ++ 0 :: ((ipcat ips ++ tail).take (r - ip.length - 1)) := by
          simp only [ipcat_cons, List.cons_append, List.append_assoc]
          rw [List.take_append_eq_append_take,
            List.take_of_length_le (by omega)]
          have hsub : r - ip.length = (r - ip.length - 1) + 1 := by omega
          rw [hsub, List.take_succ_cons, Nat.add_sub_cancel]
        rcases ih hips (r - ip.length - 1) hklt with hnone | ⟨x, hx, hxlt⟩
        · left
          simp only [List.length_cons, parseIntros]
          rw [if_neg (by rw [hlen]; exact hr2)]
          rw [htake, splitAtNul_append _ _ hip]
          simp only [hnone]
        · right
          refine ⟨(ip :: x.1, x.2), ?_, hxlt⟩
          simp only [List.length_cons, parseIntros]
          rw [if_neg (by rw [hlen]; exact hr2)]
          rw [htake, splitAtNul_append _ _ hip]
          simp only [hx]

lemma take_sub_len {α : Type} (l t : List α) :
    (l ++ t).take ((l ++ t).length - t.length) = l := by
  rw [List.length_append, Nat.add_sub_cancel]
  exact List.take_left l t

lemma parse_wire (C : Crypto) (pk : Nat) (asn1 : List Nat) (ts : Nat)
    (ips : List (List Nat)) (tail : List Nat)
    (halen : asn1.length < 65536)
    (hdec : C.asn1_decode asn1 = some pk)
    (hnul : ∀ ip ∈ ips, 0 ∉ ip)
    (hn : ips.length < 65536)
    (ht : 1 ≤ tail.length) :
    rend_parse_service_descriptor C
      (set_uint16 asn1.length ++ asn1 ++ set_uint32 ts ++ set_uint16 ips.length ++
        ipcat ips ++ tail) =
      if tail.length < C.keysize pk then .error .truncated
      else if C.keysize pk < tail.length then .error .trailingJunk
      else if C.verify_digest pk
          (set_uint16 asn1.length ++ asn1 ++ set_uint32 ts ++ set_uint16 ips.length ++
            ipcat ips) tail then
        .ok { pk := pk, timestamp := ts % 4294967296, intro_points := ips }
      else .error .badSignature := by
  unfold rend_parse_service_descriptor
  simp only [List.append_assoc, get_uint16_set, Nat.mod_eq_of_lt halen, drop_set_uint16,
    List.take_left, List.drop_left, hdec, drop_set_uint32, get_uint32_set,
    Nat.mod_eq_of_lt hn, parseIntros_ipcat ips tail hnul ht]
  rw [if_neg (by simp [length_set_uint16])]
  rw [if_neg (by simp)]
  rw [if_neg (by simp [length_set_uint32])]
  rw [if_neg (by simp [length_set_uint16])]
  have hstr : set_uint16 asn1.length ++
      (asn1 ++ (set_uint32 ts ++ (set_uint16 ips.length ++ (ipcat ips ++ tail)))) =
      (set_uint16 asn1.length ++
        (asn1 ++ (set_uint32 ts ++ (set_uint16 ips.length ++ ipcat ips)))) ++ tail := by
    simp [List.append_assoc]
  rw [hstr, take_sub_len]

lemma parse_take_truncated (C : Crypto) (pk : Nat) (asn1 : List Nat) (ts : Nat)
    (ips : List (List Nat)) (sig : List Nat) (m : Nat)
    (halen : asn1.length < 65536)
    (hdec : C.asn1_decode asn1 = some pk)
    (hnul : ∀ ip ∈ ips, 0 ∉ ip)
    (hn : ips.length < 65536)
    (hsig : sig.length = C.keysize pk)
    (hm : m < 2 + asn1.length + 4 + 2 + (ipcat ips).length + sig.length) :
    rend_parse_service_descriptor C
      ((set_uint16 asn1.length ++ asn1 ++ set_uint32 ts ++ set_uint16 ips.length ++
        ipcat ips ++ sig).take m) = .error .truncated := by
  simp only [List.append_assoc]
  by_cases h1 : m < 2
  · unfold rend_parse_service_descriptor
    rw [if_pos (by
      simp [List.length_take, length_set_uint16, length_set_uint32]
      omega)]
  · have hd1 : (set_uint16 asn1.length ++ (asn1 ++ (set_uint32 ts ++
        (set_uint16 ips.length ++ (ipcat ips ++ sig))))).take m =
        set_uint16 asn1.length ++ ((asn1 ++ (set_uint32 ts ++
          (set_uint16 ips.length ++ (ipcat ips ++ sig)))).take (m - 2)) := by
      rw [List.take_append_eq_append_take,
        List.take_of_length_le (by rw [length_set_uint16]; omega), length_set_uint16]
    rw [hd1]
    unfold rend_parse_service_descriptor
    rw [if_neg (by simp [length_set_uint16])]
    simp only [get_uint16_set, Nat.mod_eq_of_lt halen, drop_set_uint16]
    by_cases h2 : m - 2 < asn1.length
    · rw [if_pos (by
        simp [List.length_take, length_set_uint16, length_set_uint32]
        omega)]
    · rw [if_neg (by
        simp [List.length_take, length_set_uint16, length_set_uint32]
        omega)]
      have hd2 : (asn1 ++ (set_uint32 ts ++ (set_uint16 ips.length ++
          (ipcat ips ++ sig)))).take (m - 2) =
          asn1 ++ ((set_uint32 ts ++ (set_uint16 ips.length ++
            (ipcat ips ++ sig))).take (m - 2 - asn1.length)) := by
        rw [List.take_append_eq_append_take, List.take_of_length_le (by omega)]
      rw [hd2]
      simp only [List.take_left, List.drop_left, hdec]
      by_cases h3 : m - 2 - asn1.length < 4
      · rw [if_pos (by
          simp [List.length_take, length_set_uint16, length_set_uint32]
          omega)]
      · rw [if_neg (by
          simp [List.length_take, length_set_uint16, length_set_uint32]
          omega)]
        have hd3 : (set_uint32 ts ++ (set_uint16 ips.length ++
            (ipcat ips ++ sig))).take (m - 2 - asn1.length) =
            set_uint32 ts ++ ((set_uint16 ips.length ++
              (ipcat ips ++ sig)).take (m - 2 - asn1.length - 4)) := by
          rw [List.take_append_eq_append_take,
            List.take_of_length_le (by rw [length_set_uint32]; omega), length_set_uint32]
        rw [hd3, drop_set_uint32]
        by_cases h4 : m - 2 - asn1.length - 4 < 2
        · rw [if_pos (by
            simp [List.length_take, length_set_uint16, length_set_uint32]
            omega)]
        · rw [if_neg (by
            simp [List.length_take, length_set_uint16, length_set_uint32]
            omega)]
          have hd4 : (set_uint16 ips.length ++ (ipcat ips ++ sig)).take
              (m - 2 - asn1.length - 4) =
              set_uint16 ips.length ++ ((ipcat ips ++ sig).take
                (m - 2 - asn1.length - 4 - 2)) := by
            rw [List.take_append_eq_append_take,
              List.take_of_length_le (by rw [length_set_uint16]; omega), length_set_uint16]
          rw [hd4]
          simp only [get_uint16_set, Nat.mod_eq_of_lt hn, drop_set_uint16]
          rcases parseIntros_take (C.keysize pk) sig hsig ips hnul
              (m - 2 - asn1.length - 4 - 2) (by omega) with hnone | ⟨x, hx, hxlt⟩
          · simp only [hnone]
          · simp only [hx]
            rw [if_pos hxlt]

lemma encode_eq (C : Crypto) (d : rend_service_descriptor) (hg : C.Good d.pk) :
    ∃ asn1 sig, C.asn1_encode d.pk = some asn1 ∧ asn1.length < 65536 ∧
      C.asn1_decode asn1 = some d.pk ∧
      C.sign_digest d.pk
        (set_uint16 asn1.length ++ asn1 ++ set_uint32 d.timestamp ++
          set_uint16 d.intro_points.length ++ ipcat d.intro_points) = some sig ∧
      sig.length = C.keysize d.pk ∧
      C.verify_digest d.pk
        (set_uint16 asn1.length ++ asn1 ++ set_uint32 d.timestamp ++
          set_uint16 d.intro_points.length ++ ipcat d.intro_points) sig = true ∧
      rend_encode_service_descriptor C d d.pk =
        some (set_uint16 asn1.length ++ asn1 ++ set_uint32 d.timestamp ++
          set_uint16 d.intro_points.length ++ ipcat d.intro_points ++ sig) := by
  obtain ⟨asn1, hasn1⟩ := Option.isSome_iff_exists.mp hg.asn1_isSome
  obtain ⟨hdec, halen, hfit⟩ := hg.asn1_spec asn1 hasn1
  obtain ⟨sig, hsig⟩ := Option.isSome_iff_exists.mp (hg.sign_isSome
    (set_uint16 asn1.length ++ asn1 ++ set_uint32 d.timestamp ++
      set_uint16 d.intro_points.length ++ ipcat d.intro_points))
  obtain ⟨hslen, hver⟩ := hg.sign_spec _ sig hsig
  refine ⟨asn1, sig, hasn1, halen, hdec, hsig, hslen, hver, ?_⟩
  unfold rend_encode_service_descriptor
  simp only [hasn1]
  rw [if_neg (by omega)]
  simp only [hsig]
  rw [if_pos hslen]

lemma toyGood (k : Nat) (hk : k < 256) : toyCrypto.Good k := by
  constructor
  · simp [toyCrypto]
  · simp [toyCrypto, hk]
  · intro b hb
    simp [toyCrypto, hk] at hb
    subst hb
    simp [toyCrypto, hk]
  · intro data
    simp [toyCrypto]
  · intro data s hs
    simp [toyCrypto] at hs
    subst hs
    simp [toyCrypto]

/-- A concrete descriptor used to instantiate the universally quantified
theorems on closed inputs: key handle 5, timestamp 1000, intro points
"alice" and "bob". -/
def toyDesc : rend_service_descriptor :=
  { pk := 5, timestamp := 1000,
    intro_points := [[97, 108, 105, 99, 101], [98, 111, 98]] }

/-- The encoding of toyDesc under toyCrypto. -/
def toyDescBytes : List Nat :=
  (rend_encode_service_descriptor toyCrypto toyDesc 5).getD []

/-- C1 (amended): for every ServiceDescriptor d whose public_key is the
public half of the signing key (the same keypair env), whose intro_points
contain no NUL bytes, whose intro-point count fits in 16 bits and whose
timestamp fits in 32 bits, rend_encode_service_descriptor succeeds and
rend_parse_service_descriptor parses its output back to exactly d,
including the order of intro_points, the timestamp, and the public
key. -/
theorem c1_roundtrip_amended (C : Crypto) (d : rend_service_descriptor)
    (hg : C.Good d.pk)
    (hnul : ∀ ip ∈ d.intro_points, 0 ∉ ip)
    (hn : d.intro_points.length < 65536)
    (hts : d.timestamp < 4294967296) :
    ∃ s, rend_encode_service_descriptor C d d.pk = some s ∧
      rend_parse_service_descriptor C s = .ok d := by
  obtain ⟨asn1, sig, hasn1, halen, hdec, hsig, hslen, hver, henc⟩ := encode_eq C d hg
  refine ⟨_, henc, ?_⟩
  rw [parse_wire C d.pk asn1 d.timestamp d.intro_points sig halen hdec hnul hn
    (by have := hg.keysize_pos; omega)]
  rw [if_neg (by omega), if_neg (by omega), if_pos hver, Nat.mod_eq_of_lt hts]

/-- C1 witness: the amended round-trip evaluated at toyCrypto and
toyDesc. -/
theorem c1_roundtrip_witness :
    ∃ s, rend_encode_service_descriptor toyCrypto toyDesc toyDesc.pk = some s ∧
      rend_parse_service_descriptor toyCrypto s = .ok toyDesc :=
  c1_roundtrip_amended toyCrypto toyDesc (toyGood 5 (by decide)) (by decide)
    (by decide) (by decide)

/-- A descriptor whose timestamp does not fit in 32 bits. -/
def cexBigTs : rend_service_descriptor :=
  { pk := 5, timestamp := 4294967296, intro_points := [] }

/-- C1 counterexample: cexBigTs has a matching keypair handle and NUL-free
(empty) intro points, yet parsing its encoding yields timestamp 0, not
4294967296: the uint32 wire field truncates the timestamp, so the claim
as stated (with no bound on the timestamp) fails. -/
theorem c1_roundtrip_cex :
    (∀ ip ∈ cexBigTs.intro_points, 0 ∉ ip) ∧
    rend_encode_service_descriptor toyCrypto cexBigTs cexBigTs.pk =
      some [0, 1, 5, 0, 0, 0, 0, 0, 0, 5, 6] ∧
    rend_parse_service_descriptor toyCrypto [0, 1, 5, 0, 0, 0, 0, 0, 0, 5, 6] =
      .ok { pk := 5, timestamp := 0, intro_points := [] } ∧
    ({ pk := 5, timestamp := 0, intro_points := [] } : rend_service_descriptor)
      ≠ cexBigTs := by
  decide

/-- C6: every strict prefix of a validly encoded descriptor fails to
parse with the truncated error, never with success or a different error
tag. -/
theorem c6_truncation (C : Crypto) (d : rend_service_descriptor)
    (s : List Nat) (m : Nat)
    (hg : C.Good d.pk)
    (hnul : ∀ ip ∈ d.intro_points, 0 ∉ ip)
    (hn : d.intro_points.length < 65536)
    (henc : rend_encode_service_descriptor C d d.pk = some s)
    (hm : m < s.length) :
    rend_parse_service_descriptor C (s.take m) = .error .truncated := by
  obtain ⟨asn1, sig, hasn1, halen, hdec, hsig, hslen, hver, henc2⟩ := encode_eq C d hg
  rw [henc] at henc2
  have hs := Option.some_inj.mp henc2
  subst hs
  refine parse_take_truncated C d.pk asn1 d.timestamp d.intro_points sig m
    halen hdec hnul hn hslen ?_
  have hlen : (set_uint16 asn1.length ++ asn1 ++ set_uint32 d.timestamp ++
      set_uint16 d.intro_points.length ++ ipcat d.intro_points ++ sig).length =
      2 + asn1.length + 4 + 2 + (ipcat d.intro_points).length + sig.length := by
    simp [length_set_uint16, length_set_uint32]
    omega
  omega

/-- C6 witness: the truncation theorem evaluated at toyCrypto, toyDesc
and prefix length 4. -/
theorem c6_truncation_witness :
    rend_parse_service_descriptor toyCrypto (toyDescBytes.take 4) =
      .error .truncated :=
  c6_truncation toyCrypto toyDesc toyDescBytes 4 (toyGood 5 (by decide))
    (by decide) (by decide) (by decide) (by decide)

/-- C7: appending one or more bytes to a validly encoded descriptor makes
parsing fail with the trailing-junk error (the "Signature too long"
branch: the tail after the intro points must be exactly the key's modulus
length). -/
theorem c7_trailing_junk (C : Crypto) (d : rend_service_descriptor)
    (s junk : List Nat)
    (hg : C.Good d.pk)
    (hnul : ∀ ip ∈ d.intro_points, 0 ∉ ip)
    (hn : d.intro_points.length < 65536)
    (henc : rend_encode_service_descriptor C d d.pk = some s)
    (hj : junk ≠ []) :
    rend_parse_service_descriptor C (s ++ junk) = .error .trailingJunk := by
  obtain ⟨asn1, sig, hasn1, halen, hdec, hsig, hslen, hver, henc2⟩ := encode_eq C d hg
  rw [henc] at henc2
  have hs := Option.some_inj.mp henc2
  subst hs
  have hre : set_uint16 asn1.length ++ asn1 ++ set_uint32 d.timestamp ++
      set_uint16 d.intro_points.length ++ ipcat d.intro_points ++ sig ++ junk =
      set_uint16 asn1.length ++ asn1 ++ set_uint32 d.timestamp ++
        set_uint16 d.intro_points.length ++ ipcat d.intro_points ++ (sig ++ junk) := by
    simp [List.append_assoc]
  rw [hre]
  have hjpos : 0 < junk.length := List.length_pos.mpr hj
  rw [parse_wire C d.pk asn1 d.timestamp d.intro_points (sig ++ junk) halen hdec hnul hn
    (by simp; omega)]
  rw [if_neg (by simp; omega), if_pos (by simp; omega)]

/-- C7 witness: the trailing-junk theorem evaluated at toyCrypto, toyDesc
and one appended byte. -/
theorem c7_trailing_junk_witness :
    rend_parse_service_descriptor toyCrypto (toyDescBytes ++ [7]) =
      .error .trailingJunk :=
  c7_trailing_junk toyCrypto toyDesc toyDescBytes [7] (toyGood 5 (by decide))
    (by decide) (by decide) (by decide) (by decide)

lemma strmap_get_set_self {α : Type} (m : List (List Nat × α)) (k : List Nat) (v : α) :
    strmap_get (strmap_set m k v) k = some v := by
  induction m with
  | nil => simp [strmap_set, strmap_get]
  | cons kv rest ih =>
    obtain ⟨k0, v0⟩ := kv
    simp only [strmap_set]
    by_cases h : k0 = k
    · simp [strmap_get, h]
    · simp only [if_neg h, strmap_get]
      exact ih

lemma strmap_get_set_ne {α : Type} (m : List (List Nat × α)) (k k' : List Nat) (v : α)
    (h : k' ≠ k) : strmap_get (strmap_set m k v) k' = strmap_get m k' := by
  have hne : k ≠ k' := fun he => h he.symm
  induction m with
  | nil =>
    simp only [strmap_set, strmap_get]
    rw [if_neg hne]
  | cons kv rest ih =>
    obtain ⟨k0, v0⟩ := kv
    simp only [strmap_set]
    by_cases hk : k0 = k
    · subst hk
      simp only [if_pos rfl, strmap_get]
      rw [if_neg hne, if_neg hne]
    · rw [if_neg hk]
      simp only [strmap_get]
      by_cases hk' : k0 = k'
      · rw [if_pos hk', if_pos hk']
      · rw [if_neg hk', if_neg hk']
        exact ih

lemma strmap_get_mem {α : Type} (m : List (List Nat × α)) (k : List Nat) (v : α)
    (h : strmap_get m k = some v) : (k, v) ∈ m := by
  induction m with
  | nil => simp [strmap_get] at h
  | cons kv rest ih =>
    obtain ⟨k0, v0⟩ := kv
    simp only [strmap_get] at h
    by_cases hk : k0 = k
    · rw [if_pos hk] at h
      subst hk
      cases h
      simp
    · rw [if_neg hk] at h
      simp [ih h]

lemma store_result (C : Crypto) (cache : Strmap) (desc : List Nat) (now : Int) :
    (rend_cache_store C cache desc now).1 = 0 ∨
      rend_cache_store C cache desc now = (-1, cache) := by
  unfold rend_cache_store
  split
  · exact Or.inr rfl
  · split
    · exact Or.inr rfl
    · split
      · exact Or.inr rfl
      · split
        · exact Or.inr rfl
        · split
          · split
            · exact Or.inl rfl
            · split
              · exact Or.inl rfl
              · exact Or.inl rfl
          · exact Or.inl rfl

lemma cacheWF_get (C : Crypto) {m : Strmap} {k : List Nat} {e : rend_cache_entry}
    (hwf : cacheWF C m = true) (h : strmap_get m k = some e) :
    rend_parse_service_descriptor C e.desc = .ok e.parsed := by
  have hmem := strmap_get_mem m k e h
  have := List.all_eq_true.mp hwf (k, e) hmem
  simpa using this

lemma cacheWF_set (C : Crypto) {m : Strmap} (k : List Nat) {v : rend_cache_entry}
    (hwf : cacheWF C m = true)
    (hv : rend_parse_service_descriptor C v.desc = .ok v.parsed) :
    cacheWF C (strmap_set m k v) = true := by
  induction m with
  | nil => simp [strmap_set, cacheWF, hv]
  | cons kv rest ih =>
    obtain ⟨k0, v0⟩ := kv
    simp only [cacheWF, List.all_cons, Bool.and_eq_true] at hwf
    simp only [strmap_set]
    by_cases hk : k0 = k
    · rw [if_pos hk]
      simp only [cacheWF, List.all_cons, Bool.and_eq_true]
      constructor
      · simpa using hv
      · exact hwf.2
    · rw [if_neg hk]
      simp only [cacheWF, List.all_cons, Bool.and_eq_true]
      exact ⟨hwf.1, ih hwf.2⟩

/-- C10: whenever rend_cache_store returns -1 (parse failure, service-id
derivation failure, too-old, or too-far-in-the-future), the cache mapping
is left exactly as it was: nothing is inserted, removed or modified. -/
theorem c10_reject_unchanged (C : Crypto) (cache : Strmap) (desc : List Nat)
    (now : Int) (h : (rend_cache_store C cache desc now).1 = -1) :
    (rend_cache_store C cache desc now).2 = cache := by
  rcases store_result C cache desc now with h0 | hr
  · rw [h0] at h
    cases h
  · rw [hr]

/-- C10 witness: storing the unparseable empty byte string at time 0 into
the cache holding toyDesc returns -1 and leaves the cache unchanged. -/
theorem c10_reject_unchanged_witness :
    (rend_cache_store toyCrypto (rend_cache_store toyCrypto [] toyDescBytes 1000).2
        [] 0).1 = -1 ∧
    (rend_cache_store toyCrypto (rend_cache_store toyCrypto [] toyDescBytes 1000).2
        [] 0).2 = (rend_cache_store toyCrypto [] toyDescBytes 1000).2 :=
  ⟨by decide,
   c10_reject_unchanged toyCrypto (rend_cache_store toyCrypto [] toyDescBytes 1000).2
     [] 0 (by decide)⟩

/-- C3: for a byte string that parses and verifies as a descriptor (and
whose service id derives), rend_cache_store returns 0 iff
now - REND_CACHE_MAX_AGE <= parsed.timestamp <= now + REND_CACHE_MAX_SKEW
(MAX_AGE = 86400, MAX_SKEW = 5400 seconds); outside that window it
returns -1 and caches nothing. -/
theorem c3_freshness_window (C : Crypto) (cache : Strmap) (desc : List Nat)
    (now : Int) (p : rend_service_descriptor)
    (hp : rend_parse_service_descriptor C desc = .ok p)
    (hq : (rend_get_service_id C p.pk).isSome = true) :
    ((rend_cache_store C cache desc now).1 = 0 ↔
      now - REND_CACHE_MAX_AGE ≤ (p.timestamp : Int) ∧
        (p.timestamp : Int) ≤ now + REND_CACHE_MAX_SKEW) ∧
    (¬(now - REND_CACHE_MAX_AGE ≤ (p.timestamp : Int) ∧
        (p.timestamp : Int) ≤ now + REND_CACHE_MAX_SKEW) →
      rend_cache_store C cache desc now = (-1, cache)) := by
  obtain ⟨q, hq'⟩ := Option.isSome_iff_exists.mp hq
  unfold rend_cache_store
  simp only [hp, hq']
  by_cases hage : (p.timestamp : Int) < now - REND_CACHE_MAX_AGE
  · rw [if_pos hage]
    refine ⟨⟨(fun h => by simp at h), (fun hw => absurd hw.1 (by omega))⟩,
      fun _ => rfl⟩
  · rw [if_neg hage]
    by_cases hskew : (p.timestamp : Int) > now + REND_CACHE_MAX_SKEW
    · rw [if_pos hskew]
      refine ⟨⟨(fun h => by simp at h), (fun hw => absurd hw.2 (by omega))⟩,
        fun _ => rfl⟩
    · rw [if_neg hskew]
      constructor
      · constructor
        · intro _
          omega
        · intro _
          split
          · split
            · rfl
            · split
              · rfl
              · rfl
          · rfl
      · intro hw
        exact absurd ⟨by omega, by omega⟩ hw

/-- C3 witness: the freshness window evaluated at toyCrypto, the encoding
of toyDesc, and now = 1000. -/
theorem c3_freshness_window_witness :
    ((rend_cache_store toyCrypto [] toyDescBytes 1000).1 = 0 ↔
      1000 - REND_CACHE_MAX_AGE ≤ (toyDesc.timestamp : Int) ∧
        (toyDesc.timestamp : Int) ≤ 1000 + REND_CACHE_MAX_SKEW) ∧
    (¬(1000 - REND_CACHE_MAX_AGE ≤ (toyDesc.timestamp : Int) ∧
        (toyDesc.timestamp : Int) ≤ 1000 + REND_CACHE_MAX_SKEW) →
      rend_cache_store toyCrypto [] toyDescBytes 1000 = (-1, [])) :=
  c3_freshness_window toyCrypto [] toyDescBytes 1000 toyDesc (by decide) (by decide)

/-- The service id of toy key 5 under toyCrypto. -/
def toyQ : List Nat := (rend_get_service_id toyCrypto 5).getD []

/-- Encoding of a descriptor with key 5, timestamp 1000, intro point "a". -/
def cexDesc1 : List Nat :=
  (rend_encode_service_descriptor toyCrypto
    { pk := 5, timestamp := 1000, intro_points := [[97]] } 5).getD []

/-- Encoding of a descriptor with key 5, timestamp 1000, intro point "b":
same service id and timestamp as cexDesc1, different bytes. -/
def cexDesc2 : List Nat :=
  (rend_encode_service_descriptor toyCrypto
    { pk := 5, timestamp := 1000, intro_points := [[98]] } 5).getD []

/-- The cache after storing cexDesc1 at time 1000. -/
def cexCache1 : Strmap := (rend_cache_store toyCrypto [] cexDesc1 1000).2

/-- C2 counterexample: cexDesc1 and cexDesc2 are different parseable,
fresh byte strings for the same service id with equal parsed timestamps;
after storing cexDesc1, storing cexDesc2 returns 0 but REPLACES the
cached bytes with cexDesc2 — the first-stored entry is not kept, so the
claim's first-wins rule for equal timestamps fails. -/
theorem c2_equal_ts_cex :
    cexDesc1 ≠ cexDesc2 ∧
    storeTs toyCrypto cexDesc1 = storeTs toyCrypto cexDesc2 ∧
    (rend_cache_store toyCrypto [] cexDesc1 1000).1 = 0 ∧
    (strmap_get_lc cexCache1 toyQ).map (fun e => e.desc) = some cexDesc1 ∧
    (rend_cache_store toyCrypto cexCache1 cexDesc2 1000).1 = 0 ∧
    (strmap_get_lc (rend_cache_store toyCrypto cexCache1 cexDesc2 1000).2 toyQ).map
      (fun e => e.desc) = some cexDesc2 := by
  decide

/-- C2 (amended): for two store calls presenting parseable, fresh
descriptors for the same service id with equal parsed timestamps but
different bytes, the later call returns 0 and REPLACES the cached entry
with the later descriptor's parsed form and bytes (last-wins). -/
theorem c2_equal_ts_amended (C : Crypto) (cache : Strmap) (desc : List Nat)
    (now : Int) (p : rend_service_descriptor) (q : List Nat)
    (e : rend_cache_entry)
    (hp : rend_parse_service_descriptor C desc = .ok p)
    (hq : rend_get_service_id C p.pk = some q)
    (hage : ¬(p.timestamp : Int) < now - REND_CACHE_MAX_AGE)
    (hskew : ¬(p.timestamp : Int) > now + REND_CACHE_MAX_SKEW)
    (hget : strmap_get_lc cache q = some e)
    (hts : e.parsed.timestamp = p.timestamp)
    (hne : ¬(e.len = desc.length ∧ e.desc = desc)) :
    rend_cache_store C cache desc now =
      (0, strmap_set_lc cache q
        { received := now, parsed := p, len := desc.length, desc := desc }) := by
  unfold rend_cache_store
  simp only [hp, hq, hget]
  rw [if_neg hage, if_neg hskew]
  rw [if_neg (by omega)]
  rw [if_neg (by
    simp only [Bool.and_eq_true, decide_eq_true_iff]
    exact hne)]

/-- C2 witness: the amended last-wins behaviour evaluated at toyCrypto,
cexCache1 and cexDesc2. -/
theorem c2_equal_ts_witness :
    rend_cache_store toyCrypto cexCache1 cexDesc2 1000 =
      (0, strmap_set_lc cexCache1 toyQ
        { received := 1000,
          parsed := { pk := 5, timestamp := 1000, intro_points := [[98]] },
          len := cexDesc2.length, desc := cexDesc2 }) :=
  c2_equal_ts_amended toyCrypto cexCache1 cexDesc2 1000
    { pk := 5, timestamp := 1000, intro_points := [[98]] } toyQ
    { received := 1000,
      parsed := { pk := 5, timestamp := 1000, intro_points := [[97]] },
      len := cexDesc1.length, desc := cexDesc1 }
    (by decide) (by decide) (by decide) (by decide) (by decide) (by decide)
    (by decide)

/-- Encoding of a descriptor with key 5, timestamp 0, no intro points. -/
def cexDesc0 : List Nat :=
  (rend_encode_service_descriptor toyCrypto
    { pk := 5, timestamp := 0, intro_points := [] } 5).getD []

/-- The cache after storing cexDesc0 at time 0. -/
def cexCache0 : Strmap := (rend_cache_store toyCrypto [] cexDesc0 0).2

/-- C9 counterexample: the cache holds an entry whose bytes are exactly
cexDesc0, yet calling rend_cache_store with those identical bytes at
now = 86401 returns -1 (stale) with nothing updated, not 0 with received
refreshed: the claim fails without a freshness hypothesis. -/
theorem c9_duplicate_cex :
    (strmap_get_lc cexCache0 toyQ).map (fun e => (e.len, e.desc)) =
      some (cexDesc0.length, cexDesc0) ∧
    rend_cache_store toyCrypto cexCache0 cexDesc0 86401 = (-1, cexCache0) := by
  decide

/-- C9 (amended): when rend_cache_store is called with bytes identical to
the existing cached entry for that service id (equal length and
byte-for-byte equal) and the descriptor's timestamp is within the
freshness window at now, it returns 0 and updates only the entry's
received field to now; the parsed descriptor, encoded bytes, and length
are left unchanged, as is every other entry. -/
theorem c9_duplicate_amended (C : Crypto) (cache : Strmap) (desc : List Nat)
    (now : Int) (p : rend_service_descriptor) (q : List Nat)
    (e : rend_cache_entry)
    (hwf : cacheWF C cache = true)
    (hp : rend_parse_service_descriptor C desc = .ok p)
    (hq : rend_get_service_id C p.pk = some q)
    (hage : ¬(p.timestamp : Int) < now - REND_CACHE_MAX_AGE)
    (hskew : ¬(p.timestamp : Int) > now + REND_CACHE_MAX_SKEW)
    (hget : strmap_get_lc cache q = some e)
    (hlen : e.len = desc.length) (hbytes : e.desc = desc) :
    rend_cache_store C cache desc now =
      (0, strmap_set_lc cache q { e with received := now }) := by
  have hpe : rend_parse_service_descriptor C e.desc = .ok e.parsed :=
    cacheWF_get C hwf hget
  rw [hbytes, hp] at hpe
  injection hpe with hpp
  unfold rend_cache_store
  simp only [hp, hq, hget]
  rw [if_neg hage, if_neg hskew]
  rw [if_neg (by rw [← hpp]; omega)]
  rw [if_pos (by
    simp only [Bool.and_eq_true, decide_eq_true_iff]
    exact ⟨hlen, hbytes⟩)]

/-- C9 witness: the amended duplicate refresh evaluated at toyCrypto,
cexCache0 and cexDesc0 at now = 100. -/
theorem c9_duplicate_witness :
    rend_cache_store toyCrypto cexCache0 cexDesc0 100 =
      (0, strmap_set_lc cexCache0 toyQ
        { received := 100,
          parsed := { pk := 5, timestamp := 0, intro_points := [] },
          len := cexDesc0.length, desc := cexDesc0 }) :=
  c9_duplicate_amended toyCrypto cexCache0 cexDesc0 100
    { pk := 5, timestamp := 0, intro_points := [] } toyQ
    { received := 0,
      parsed := { pk := 5, timestamp := 0, intro_points := [] },
      len := cexDesc0.length, desc := cexDesc0 }
    (by decide) (by decide) (by decide) (by decide) (by decide) (by decide)
    (by decide) (by decide)

lemma strlower_eq_self (q : List Nat) (h : ∀ c ∈ q, tolower c = c) :
    strlower q = q := by
  unfold strlower
  induction q with
  | nil => rfl
  | cons c cs ih =>
    simp only [List.map_cons]
    rw [h c (by simp), ih (fun x hx => h x (by simp [hx]))]

lemma base32_not_upper : ∀ c ∈ BASE32_CHARS, ¬(65 ≤ c ∧ c ≤ 90) := by decide


/-- An arbitrary cache entry for lookup counterexamples. -/
def c5entry : rend_cache_entry :=
  { received := 0, parsed := { pk := 5, timestamp := 0, intro_points := [] },
    len := 0, desc := [] }

/-- toyQ with every lowercase letter changed to upper case. -/
def toyQupper : List Nat :=
  toyQ.map fun c => if 97 ≤ c ∧ c ≤ 122 then c - 32 else c

/-- C5 counterexample: toyQ is a canonical lowercase service id; against
a cache holding an entry under toyQ, querying the uppercased form returns
(-1, none) — InvalidQuery — not the hit the claim requires, because
rend_valid_service_id admits only the lowercase base32 alphabet. -/
theorem c5_case_cex :
    rend_valid_service_id toyQ = true ∧
    toyQupper ≠ toyQ ∧
    rend_cache_lookup_entry [(toyQ, c5entry)] toyQ = (1, some c5entry) ∧
    rend_cache_lookup_entry [(toyQ, c5entry)] toyQupper = (-1, none) := by
  decide


/-- C5 (amended): lookups are case-insensitive only after validation, and
validation admits only the lowercase base32 alphabet: querying a stored
id in its lowercase canonical form is a hit returning the stored entry,
while any query containing an uppercase letter is rejected as
InvalidQuery (-1) by rend_valid_service_id. -/
theorem c5_case_amended :
    (∀ (cache : Strmap) (q : List Nat) (e : rend_cache_entry),
      rend_valid_service_id q = true → strmap_get cache q = some e →
      rend_cache_lookup_entry cache q = (1, some e)) ∧
    (∀ (cache : Strmap) (query : List Nat) (c : Nat),
      c ∈ query → 65 ≤ c → c ≤ 90 →
      rend_cache_lookup_entry cache query = (-1, none)) := by
  constructor
  · intro cache q e hv hget
    unfold rend_cache_lookup_entry
    rw [if_neg (by simp [hv])]
    have hmem : ∀ c ∈ q, c ∈ BASE32_CHARS := by
      intro c hc
      unfold rend_valid_service_id at hv
      simp only [Bool.and_eq_true] at hv
      have := List.all_eq_true.mp hv.2 c hc
      simpa using this
    have hlower : strlower q = q := by
      refine strlower_eq_self q (fun c hc => ?_)
      unfold tolower
      rw [if_neg (base32_not_upper c (hmem c hc))]
    unfold strmap_get_lc
    rw [hlower, hget]
  · intro cache query c hc h65 h90
    have hnotmem : c ∉ BASE32_CHARS := fun hmem =>
      base32_not_upper c hmem ⟨h65, h90⟩
    have hval : rend_valid_service_id query = false := by
      unfold rend_valid_service_id
      cases hall : query.all fun c => decide (c ∈ BASE32_CHARS) with
      | false => simp [hall]
      | true =>
        exfalso
        have := List.all_eq_true.mp hall c hc
        simp at this
        exact hnotmem this
    unfold rend_cache_lookup_entry
    rw [if_pos (by simp [hval])]

/-- C5 witness: the amended lookup behaviour evaluated at a cache holding
c5entry under toyQ, queried with toyQ and with its uppercased form. -/
theorem c5_case_witness :
    rend_cache_lookup_entry [(toyQ, c5entry)] toyQ = (1, some c5entry) ∧
    rend_cache_lookup_entry [(toyQ, c5entry)] toyQupper = (-1, none) :=
  ⟨c5_case_amended.1 [(toyQ, c5entry)] toyQ c5entry (by decide) (by decide),
   c5_case_amended.2 [(toyQ, c5entry)] toyQupper 65 (by decide) (by decide)
     (by decide)⟩

/-- C8: after rend_cache_clean at wall-clock time now, no remaining entry
has parsed.timestamp < now - REND_CACHE_MAX_AGE, and every entry at least
that fresh that was present before the call is still present, unchanged,
under the same service id. -/
theorem c8_clean_invariant (cache : Strmap) (now : Int) :
    (∀ k e, strmap_get (rend_cache_clean cache now) k = some e →
      ¬((e.parsed.timestamp : Int) < now - REND_CACHE_MAX_AGE)) ∧
    (∀ k e, strmap_get cache k = some e →
      ¬((e.parsed.timestamp : Int) < now - REND_CACHE_MAX_AGE) →
      strmap_get (rend_cache_clean cache now) k = some e) := by
  constructor
  · intro k e h
    have hmem := strmap_get_mem _ _ _ h
    have := (List.mem_filter.mp hmem).2
    simpa using this
  · intro k e
    induction cache with
    | nil =>
      intro h _
      simp [strmap_get] at h
    | cons kv rest ih =>
      obtain ⟨k0, e0⟩ := kv
      intro h hfresh
      simp only [strmap_get] at h
      unfold rend_cache_clean
      by_cases hk : k0 = k
      · rw [if_pos hk] at h
        cases h
        rw [List.filter_cons_of_pos (by simpa using hfresh)]
        simp only [strmap_get]
        rw [if_pos hk]
      · rw [if_neg hk] at h
        by_cases hp : ((e0.parsed.timestamp : Int) < now - REND_CACHE_MAX_AGE)
        · rw [List.filter_cons_of_neg (by simp; omega)]
          unfold rend_cache_clean at ih
          exact ih h hfresh
        · rw [List.filter_cons_of_pos (by simp; omega)]
          simp only [strmap_get]
          rw [if_neg hk]
          unfold rend_cache_clean at ih
          exact ih h hfresh

/-- A fresh entry (timestamp 89000) for the clean witness. -/
def eFresh : rend_cache_entry :=
  { received := 89000, parsed := { pk := 5, timestamp := 89000, intro_points := [] },
    len := 0, desc := [] }

/-- A stale entry (timestamp 10) for the clean witness. -/
def eStale : rend_cache_entry :=
  { received := 20, parsed := { pk := 5, timestamp := 10, intro_points := [] },
    len := 0, desc := [] }

/-- A two-entry cache holding a fresh and a stale entry. -/
def cacheC8 : Strmap := [(toyQ, eFresh), ([107], eStale)]

/-- C8 witness: cleaning cacheC8 at now = 90000 keeps the fresh entry
unchanged under its id, and the kept entry satisfies the age bound. -/
theorem c8_clean_invariant_witness :
    strmap_get (rend_cache_clean cacheC8 90000) toyQ = some eFresh ∧
    ¬((eFresh.parsed.timestamp : Int) < 90000 - REND_CACHE_MAX_AGE) :=
  ⟨(c8_clean_invariant cacheC8 90000).2 toyQ eFresh (by decide) (by decide),
   (c8_clean_invariant cacheC8 90000).1 toyQ eFresh (by decide)⟩

lemma store_branches (C : Crypto) (cache : Strmap) (d : List Nat) (now : Int)
    (p : rend_service_descriptor) (q : List Nat)
    (hp : rend_parse_service_descriptor C d = .ok p)
    (hq : rend_get_service_id C p.pk = some q) :
    rend_cache_store C cache d now = (-1, cache) ∨
    (rend_cache_store C cache d now = (0, cache) ∧
      ∃ e, strmap_get_lc cache q = some e ∧
        p.timestamp < e.parsed.timestamp) ∨
    (∃ e, strmap_get_lc cache q = some e ∧ e.len = d.length ∧ e.desc = d ∧
      ¬e.parsed.timestamp > p.timestamp ∧
      rend_cache_store C cache d now =
        (0, strmap_set_lc cache q { e with received := now })) ∨
    ((∀ e, strmap_get_lc cache q = some e →
        ¬e.parsed.timestamp > p.timestamp) ∧
      rend_cache_store C cache d now =
        (0, strmap_set_lc cache q
          { received := now, parsed := p, len := d.length, desc := d })) := by
  by_cases hage : (p.timestamp : Int) < now - REND_CACHE_MAX_AGE
  · refine Or.inl ?_
    unfold rend_cache_store
    simp only [hp, hq, if_pos hage]
  · by_cases hskew : (p.timestamp : Int) > now + REND_CACHE_MAX_SKEW
    · refine Or.inl ?_
      unfold rend_cache_store
      simp only [hp, hq, if_neg hage, if_pos hskew]
    · rcases hgo : strmap_get_lc cache q with _ | e
      · refine Or.inr (Or.inr (Or.inr ⟨?_, ?_⟩))
        · intro e he
          cases he
        · unfold rend_cache_store
          simp only [hp, hq, if_neg hage, if_neg hskew, hgo]
      · by_cases hts : e.parsed.timestamp > p.timestamp
        · refine Or.inr (Or.inl ⟨?_, e, rfl, hts⟩)
          unfold rend_cache_store
          simp only [hp, hq, if_neg hage, if_neg hskew, hgo, if_pos hts]
        · by_cases hdup : e.len = d.length ∧ e.desc = d
          · have hcond : (decide (e.len = d.length) && decide (e.desc = d)) = true := by
              simp only [Bool.and_eq_true, decide_eq_true_iff]
              exact hdup
            refine Or.inr (Or.inr (Or.inl ⟨e, rfl, hdup.1, hdup.2, hts, ?_⟩))
            unfold rend_cache_store
            simp only [hp, hq, if_neg hage, if_neg hskew, hgo, if_neg hts, if_pos hcond]
          · have hcond : ¬((decide (e.len = d.length) && decide (e.desc = d)) = true) := by
              simp only [Bool.and_eq_true, decide_eq_true_iff]
              exact hdup
            refine Or.inr (Or.inr (Or.inr ⟨?_, ?_⟩))
            · intro e0 he0
              injection he0 with he0
              rw [← he0]
              exact hts
            · unfold rend_cache_store
              simp only [hp, hq, if_neg hage, if_neg hskew, hgo, if_neg hts, if_neg hcond]

lemma store_mono (C : Crypto) (cache : Strmap) (d : List Nat) (now : Int)
    (k : List Nat) (e e' : rend_cache_entry)
    (hget : strmap_get cache k = some e)
    (hget' : strmap_get (rend_cache_store C cache d now).2 k = some e') :
    e.parsed.timestamp ≤ e'.parsed.timestamp := by
  cases hpr : rend_parse_service_descriptor C d with
  | error err =>
    have hst : rend_cache_store C cache d now = (-1, cache) := by
      unfold rend_cache_store
      simp only [hpr]
    rw [hst] at hget'
    rw [hget] at hget'
    injection hget' with h
    exact le_of_eq (by rw [h])
  | ok p =>
    cases hid : rend_get_service_id C p.pk with
    | none =>
      have hst : rend_cache_store C cache d now = (-1, cache) := by
        unfold rend_cache_store
        simp only [hpr, hid]
      rw [hst] at hget'
      rw [hget] at hget'
      injection hget' with h
      exact le_of_eq (by rw [h])
    | some q =>
      rcases store_branches C cache d now p q hpr hid with
        h1 | ⟨h2, _⟩ | ⟨e0, hg0, _, _, hts0, hst⟩ | ⟨hprior, hst⟩
      · rw [h1] at hget'
        rw [hget] at hget'
        injection hget' with h
        exact le_of_eq (by rw [h])
      · rw [h2] at hget'
        rw [hget] at hget'
        injection hget' with h
        exact le_of_eq (by rw [h])
      · rw [hst] at hget'
        unfold strmap_set_lc at hget'
        by_cases hk : k = strlower q
        · subst hk
          rw [strmap_get_set_self] at hget'
          injection hget' with h
          unfold strmap_get_lc at hg0
          rw [hget] at hg0
          injection hg0 with hg0
          rw [← h, hg0]
        · rw [strmap_get_set_ne _ _ _ _ hk] at hget'
          rw [hget] at hget'
          injection hget' with h
          exact le_of_eq (by rw [h])
      · rw [hst] at hget'
        unfold strmap_set_lc at hget'
        by_cases hk : k = strlower q
        · subst hk
          rw [strmap_get_set_self] at hget'
          injection hget' with h
          have hle : e.parsed.timestamp ≤ p.timestamp := by
            have := hprior e (by unfold strmap_get_lc; exact hget)
            omega
          rw [← h]
          exact hle
        · rw [strmap_get_set_ne _ _ _ _ hk] at hget'
          rw [hget] at hget'
          injection hget' with h
          exact le_of_eq (by rw [h])

lemma inv_step_set (cache : Strmap) (q : List Nat) (v : rend_cache_entry)
    (t : Nat) (fin : Strmap) (acc : List Nat)
    (hvts : v.parsed.timestamp = t)
    (hprior : ∀ e, strmap_get_lc cache q = some e → e.parsed.timestamp ≤ t)
    (hnone : strmap_get_lc fin q = none →
      strmap_get_lc (strmap_set_lc cache q v) q = none ∧ acc = [])
    (hsome : ∀ e', strmap_get_lc fin q = some e' →
      (e'.parsed.timestamp ∈ acc ∨
        ∃ e, strmap_get_lc (strmap_set_lc cache q v) q = some e ∧
          e.parsed.timestamp = e'.parsed.timestamp) ∧
      (∀ s ∈ acc, s ≤ e'.parsed.timestamp) ∧
      (∀ e, strmap_get_lc (strmap_set_lc cache q v) q = some e →
        e.parsed.timestamp ≤ e'.parsed.timestamp)) :
    (strmap_get_lc fin q = none →
      strmap_get_lc cache q = none ∧ t :: acc = []) ∧
    (∀ e', strmap_get_lc fin q = some e' →
      (e'.parsed.timestamp ∈ t :: acc ∨
        ∃ e, strmap_get_lc cache q = some e ∧
          e.parsed.timestamp = e'.parsed.timestamp) ∧
      (∀ s ∈ t :: acc, s ≤ e'.parsed.timestamp) ∧
      (∀ e, strmap_get_lc cache q = some e →
        e.parsed.timestamp ≤ e'.parsed.timestamp)) := by
  have hgetv : strmap_get_lc (strmap_set_lc cache q v) q = some v := by
    unfold strmap_get_lc strmap_set_lc
    exact strmap_get_set_self _ _ _
  constructor
  · intro h
    cases ((hnone h).1.symm.trans hgetv)
  · intro e' h
    obtain ⟨hdisj, hbound, hmono⟩ := hsome e' h
    have hvle : v.parsed.timestamp ≤ e'.parsed.timestamp := hmono v hgetv
    refine ⟨?_, ?_, ?_⟩
    · rcases hdisj with hin | ⟨e, hee, hts⟩
      · exact Or.inl (List.mem_cons_of_mem _ hin)
      · rw [hgetv] at hee
        injection hee with hee
        left
        rw [← hts, ← hee, hvts]
        exact List.mem_cons_self t acc
    · intro s hs
      rcases List.mem_cons.mp hs with hs | hs
      · subst hs
        rw [← hvts]
        exact hvle
      · exact hbound s hs
    · intro e he
      exact le_trans (hprior e he) (hvts ▸ hvle)

lemma inv_step_skip (cache : Strmap) (q : List Nat) (e0 : rend_cache_entry)
    (t : Nat) (fin : Strmap) (acc : List Nat)
    (hget0 : strmap_get_lc cache q = some e0)
    (ht : t ≤ e0.parsed.timestamp)
    (hnone : strmap_get_lc fin q = none →
      strmap_get_lc cache q = none ∧ acc = [])
    (hsome : ∀ e', strmap_get_lc fin q = some e' →
      (e'.parsed.timestamp ∈ acc ∨
        ∃ e, strmap_get_lc cache q = some e ∧
          e.parsed.timestamp = e'.parsed.timestamp) ∧
      (∀ s ∈ acc, s ≤ e'.parsed.timestamp) ∧
      (∀ e, strmap_get_lc cache q = some e →
        e.parsed.timestamp ≤ e'.parsed.timestamp)) :
    (strmap_get_lc fin q = none →
      strmap_get_lc cache q = none ∧ t :: acc = []) ∧
    (∀ e', strmap_get_lc fin q = some e' →
      (e'.parsed.timestamp ∈ t :: acc ∨
        ∃ e, strmap_get_lc cache q = some e ∧
          e.parsed.timestamp = e'.parsed.timestamp) ∧
      (∀ s ∈ t :: acc, s ≤ e'.parsed.timestamp) ∧
      (∀ e, strmap_get_lc cache q = some e →
        e.parsed.timestamp ≤ e'.parsed.timestamp)) := by
  constructor
  · intro h
    cases ((hnone h).1.symm.trans hget0)
  · intro e' h
    obtain ⟨hdisj, hbound, hmono⟩ := hsome e' h
    refine ⟨?_, ?_, hmono⟩
    · rcases hdisj with hin | he
      · exact Or.inl (List.mem_cons_of_mem _ hin)
      · exact Or.inr he
    · intro s hs
      rcases List.mem_cons.mp hs with hs | hs
      · subst hs
        exact le_trans ht (hmono e0 hget0)
      · exact hbound s hs

lemma runStores_cons (C : Crypto) (d : List Nat) (now : Int)
    (rest : List (List Nat × Int)) (cache : Strmap) :
    runStores C ((d, now) :: rest) cache =
      ((runStores C rest (rend_cache_store C cache d now).2).1,
        (if (rend_cache_store C cache d now).1 = 0 then [storeTs C d] else []) ++
          (runStores C rest (rend_cache_store C cache d now).2).2) := rfl


lemma runStores_inv (C : Crypto) (q : List Nat) :
    ∀ (calls : List (List Nat × Int)) (cache : Strmap),
      cacheWF C cache = true →
      (∀ c ∈ calls, presentsFor C c q = true) →
      cacheWF C (runStores C calls cache).1 = true ∧
      (strmap_get_lc (runStores C calls cache).1 q = none →
        strmap_get_lc cache q = none ∧ (runStores C calls cache).2 = []) ∧
      (∀ e', strmap_get_lc (runStores C calls cache).1 q = some e' →
        (e'.parsed.timestamp ∈ (runStores C calls cache).2 ∨
          ∃ e, strmap_get_lc cache q = some e ∧
            e.parsed.timestamp = e'.parsed.timestamp) ∧
        (∀ t ∈ (runStores C calls cache).2, t ≤ e'.parsed.timestamp) ∧
        (∀ e, strmap_get_lc cache q = some e →
          e.parsed.timestamp ≤ e'.parsed.timestamp)) := by
  intro calls
  induction calls with
  | nil =>
    intro cache hwf _
    refine ⟨hwf, fun h => ⟨h, rfl⟩, ?_⟩
    intro e' h
    have h0 : strmap_get_lc cache q = some e' := h
    refine ⟨Or.inr ⟨e', h0, rfl⟩, ?_, ?_⟩
    · intro t ht
      simp [runStores] at ht
    · intro e he
      rw [h0] at he
      injection he with he
      rw [he]
  | cons c rest ih =>
    obtain ⟨d, now⟩ := c
    intro cache hwf hcalls
    have hc := hcalls (d, now) (List.mem_cons_self _ _)
    have hrest : ∀ x ∈ rest, presentsFor C x q = true := fun x hx =>
      hcalls x (List.mem_cons_of_mem _ hx)
    simp only [presentsFor] at hc
    cases hpr : rend_parse_service_descriptor C d with
    | error err =>
      rw [hpr] at hc
      simp at hc
    | ok p =>
      rw [hpr] at hc
      have hid : rend_get_service_id C p.pk = some q := of_decide_eq_true hc
      have htseq : storeTs C d = p.timestamp := by
        unfold storeTs
        rw [hpr]
      rcases store_branches C cache d now p q hpr hid with
        h1 | ⟨h2, e0, hg0, hlt⟩ | ⟨e0, hg0, hlen0, hdesc0, hts0, hst⟩ | ⟨hprior, hst⟩
      · have hrun : runStores C ((d, now) :: rest) cache = runStores C rest cache := by
          rw [runStores_cons, h1]
          exact rfl
        rw [hrun]
        exact ih cache hwf hrest
      · have hrun : runStores C ((d, now) :: rest) cache =
            ((runStores C rest cache).1,
              storeTs C d :: (runStores C rest cache).2) := by
          rw [runStores_cons, h2]
          exact rfl
        rw [hrun]
        obtain ⟨ihwf, ihnone, ihsome⟩ := ih cache hwf hrest
        refine ⟨ihwf, ?_⟩
        rw [htseq]
        exact inv_step_skip cache q e0 p.timestamp (runStores C rest cache).1
          (runStores C rest cache).2 hg0 (le_of_lt hlt) ihnone ihsome
      · have hg0' : strmap_get cache (strlower q) = some e0 := hg0
        have hpe : rend_parse_service_descriptor C e0.desc = .ok e0.parsed :=
          cacheWF_get C hwf hg0'
        have hpp : p = e0.parsed := by
          rw [hdesc0, hpr] at hpe
          injection hpe with hpe
        have hwf' : cacheWF C (strmap_set_lc cache q { e0 with received := now }) = true := by
          unfold strmap_set_lc
          exact cacheWF_set C (strlower q) hwf hpe
        have hrun : runStores C ((d, now) :: rest) cache =
            ((runStores C rest (strmap_set_lc cache q { e0 with received := now })).1,
              storeTs C d ::
                (runStores C rest (strmap_set_lc cache q { e0 with received := now })).2) := by
          rw [runStores_cons, hst]
          exact rfl
        rw [hrun]
        obtain ⟨ihwf, ihnone, ihsome⟩ :=
          ih (strmap_set_lc cache q { e0 with received := now }) hwf' hrest
        refine ⟨ihwf, ?_⟩
        rw [htseq]
        refine inv_step_set cache q { e0 with received := now } p.timestamp _ _
          (by rw [hpp]) ?_ ihnone ihsome
        intro e he
        rw [hg0] at he
        injection he with he
        rw [← he, ← hpp]
      · have hwf' : cacheWF C (strmap_set_lc cache q
            { received := now, parsed := p, len := d.length, desc := d }) = true := by
          unfold strmap_set_lc
          exact cacheWF_set C (strlower q) hwf hpr
        have hrun : runStores C ((d, now) :: rest) cache =
            ((runStores C rest (strmap_set_lc cache q
                { received := now, parsed := p, len := d.length, desc := d })).1,
              storeTs C d ::
                (runStores C rest (strmap_set_lc cache q
                  { received := now, parsed := p, len := d.length, desc := d })).2) := by
          rw [runStores_cons, hst]
          exact rfl
        rw [hrun]
        obtain ⟨ihwf, ihnone, ihsome⟩ :=
          ih (strmap_set_lc cache q
            { received := now, parsed := p, len := d.length, desc := d }) hwf' hrest
        refine ⟨ihwf, ?_⟩
        rw [htseq]
        refine inv_step_set cache q
          { received := now, parsed := p, len := d.length, desc := d } p.timestamp _ _
          rfl ?_ ihnone ihsome
        intro e he
        have := hprior e he
        omega

/-- C4: after any sequence of rend_cache_store calls presenting
descriptors for a single service id, the cached entry's parsed timestamp
equals the maximum timestamp among the accepted (0-returning) calls
(it is one of them and bounds them all, and no entry exists when none was
accepted); moreover no store call ever replaces a cached entry with a
descriptor whose timestamp is strictly smaller. -/
theorem c4_cache_monotonic (C : Crypto) (q : List Nat)
    (calls : List (List Nat × Int))
    (hcalls : ∀ c ∈ calls, presentsFor C c q = true) :
    ((strmap_get_lc (runStores C calls []).1 q = none →
        (runStores C calls []).2 = []) ∧
     (∀ e', strmap_get_lc (runStores C calls []).1 q = some e' →
        e'.parsed.timestamp ∈ (runStores C calls []).2 ∧
        ∀ t ∈ (runStores C calls []).2, t ≤ e'.parsed.timestamp)) ∧
    (∀ (cache : Strmap) (d : List Nat) (now : Int) (k : List Nat)
        (e e' : rend_cache_entry),
      strmap_get cache k = some e →
      strmap_get (rend_cache_store C cache d now).2 k = some e' →
      e.parsed.timestamp ≤ e'.parsed.timestamp) := by
  constructor
  · obtain ⟨_, hnone, hsome⟩ := runStores_inv C q calls [] (by rfl) hcalls
    constructor
    · intro h
      exact (hnone h).2
    · intro e' h
      obtain ⟨hdisj, hbound, _⟩ := hsome e' h
      refine ⟨?_, hbound⟩
      rcases hdisj with hin | ⟨e, hee, _⟩
      · exact hin
      · simp [strmap_get_lc, strmap_get] at hee
  · intro cache d now k e e' hget hget'
    exact store_mono C cache d now k e e' hget hget'

/-- C4 witness: the monotonicity theorem evaluated at toyCrypto with the
call sequence storing cexDesc1 (timestamp 1000) and then cexDesc0
(timestamp 0), both at now = 1000. -/
theorem c4_cache_monotonic_witness :
    ((strmap_get_lc (runStores toyCrypto [(cexDesc1, 1000), (cexDesc0, 1000)] []).1
        toyQ = none →
      (runStores toyCrypto [(cexDesc1, 1000), (cexDesc0, 1000)] []).2 = []) ∧
     (∀ e', strmap_get_lc
          (runStores toyCrypto [(cexDesc1, 1000), (cexDesc0, 1000)] []).1 toyQ =
          some e' →
        e'.parsed.timestamp ∈
          (runStores toyCrypto [(cexDesc1, 1000), (cexDesc0, 1000)] []).2 ∧
        ∀ t ∈ (runStores toyCrypto [(cexDesc1, 1000), (cexDesc0, 1000)] []).2,
          t ≤ e'.parsed.timestamp)) ∧
    (∀ (cache : Strmap) (d : List Nat) (now : Int) (k : List Nat)
        (e e' : rend_cache_entry),
      strmap_get cache k = some e →
      strmap_get (rend_cache_store toyCrypto cache d now).2 k = some e' →
      e.parsed.timestamp ≤ e'.parsed.timestamp) :=
  c4_cache_monotonic toyCrypto toyQ [(cexDesc1, 1000), (cexDesc0, 1000)] (by decide)
